import Mathlib

/-!
Verification of the ETL aggregation pipeline of `src/etl/build_bi_cube.py`
(Polars lazy pipeline: scan, strict downcasts, amount cleaning, derived
flags, six-dimension group-by, and a parquet sink with a collect fallback).

The embedding works on the rows that survived CSV ingestion
(`scan_csv(..., ignore_errors=True)` nulls out unparseable fields and drops
malformed lines, so every surviving field is modelled as an `Option`).
Machine floats (`Float32`) are modelled as exact rationals; Polars strict
casts are modelled as an explicit validity check followed by the identity
on the integer value, and a failed cast aborts the whole frame, exactly as
`Expr.cast(strict)` does.
-/

set_option maxHeartbeats 1000000
set_option maxRecDepth 2048

deriving instance DecidableEq for Except

/-- One raw CSV record after ingestion: the projection of the twelve
columns kept by `build_optimized_pipeline`. Every field is nullable. -/
structure RawRow where
  user : Option Int
  card : Option Int
  year : Option Int
  month : Option Int
  day : Option Int
  amount : Option String
  useChip : Option String
  merchantCity : Option String
  merchantState : Option String
  mcc : Option Int
  errorsField : Option String
  isFraudField : Option String
deriving DecidableEq

/-- Composite date value produced by `pl.date(Year, Month, Day)`. -/
structure SimpleDate where
  year : Int
  month : Int
  day : Int
deriving DecidableEq

/-- Gregorian leap-year test, as used by the chrono date construction
backing `pl.date`. -/
def isLeap (y : Int) : Bool :=
  (y % 4 == 0 && !(y % 100 == 0)) || (y % 400 == 0)

/-- Number of days of month `m` in year `y`. -/
def daysInMonth (y m : Int) : Int :=
  if m == 2 then (if isLeap y then 29 else 28)
  else if m == 4 || m == 6 || m == 9 || m == 11 then 30
  else 31

/-- Whether `(y, m, d)` is a valid calendar date. -/
def validDate (y m d : Int) : Bool :=
  decide (1 ≤ m) && decide (m ≤ 12) && decide (1 ≤ d) && decide (d ≤ daysInMonth y m)

/-- `pl.date` on non-null components: a valid combination yields exactly
that date, an invalid one yields null (chrono `from_ymd_opt`). -/
def mkDate (y m d : Int) : Option SimpleDate :=
  if validDate y m d then some (SimpleDate.mk y m d) else none

/-- `pl.date` lifted to nullable components: null in, null out. -/
def mkDateOpt (y m d : Option Int) : Option SimpleDate :=
  match y, m, d with
  | some a, some b, some c => mkDate a b c
  | _, _, _ => none

/-- `str.replace_all(r"[\$,]", "")`: drop every dollar sign and comma. -/
def cleanAmount (s : String) : String :=
  String.mk (s.data.filter (fun c => !(c == '$' || c == ',')))

/-- Numeric value of a decimal digit character. -/
def digitVal (c : Char) : Nat := c.toNat - 48

/-- Value of a digit string read in base 10. -/
def natOfDigits (l : List Char) : Nat :=
  l.foldl (fun a c => 10 * a + digitVal c) 0

/-- Unsigned decimal literal `digits [. digits]` (at least one digit),
read as an exact rational. -/
def parseUnsignedRat (l : List Char) : Option ℚ :=
  let ip := l.takeWhile Char.isDigit
  let rest := l.dropWhile Char.isDigit
  match rest with
  | [] => if ip.isEmpty then none else some ((natOfDigits ip : ℚ))
  | c :: frac =>
    if c == '.' && frac.all Char.isDigit && !(ip.isEmpty && frac.isEmpty) then
      some ((natOfDigits ip : ℚ) + (natOfDigits frac : ℚ) / ((10 : ℚ) ^ frac.length))
    else none

/-- The string-to-float conversion behind `.cast(pl.Float32)`: optional
sign followed by a decimal literal, modelled exactly over ℚ. -/
def parseFloat (s : String) : Option ℚ :=
  match s.data with
  | '-' :: rest => (parseUnsignedRat rest).map (fun q => -q)
  | '+' :: rest => parseUnsignedRat rest
  | l => parseUnsignedRat l

/-- Transformed row after downcasting and the derivation stage. -/
structure TxRow where
  user : Option Int
  card : Option Int
  year : Option Int
  month : Option Int
  day : Option Int
  useChip : Option String
  merchantCity : Option String
  merchantState : Option String
  mcc : Option Int
  amountClean : Option ℚ
  isFraud : Option Bool
  hasError : Bool
  date : Option SimpleDate
deriving DecidableEq

/-- A nullable integer fits the target integer width: null always passes a
strict cast, a value passes exactly when it is in range. -/
def inRangeOpt (lo hi : Int) (v : Option Int) : Bool :=
  match v with
  | none => true
  | some x => decide (lo ≤ x) && decide (x ≤ hi)

/-- The strict `cast(pl.Float32)` of the cleaned amount succeeds: null
passes through, a string must parse as a float. -/
def amountCastOk (a : Option String) : Bool :=
  match a with
  | none => true
  | some s => (parseFloat (cleanAmount s)).isSome

/-- All strict downcasts of step 2 of the pipeline succeed on this row:
Year to Int16, Month, Day and Card to Int8, MCC to Int16, User to Int32,
and the cleaned Amount to Float32. -/
def rowCastOk (r : RawRow) : Bool :=
  inRangeOpt (-32768) 32767 r.year &&
  inRangeOpt (-128) 127 r.month &&
  inRangeOpt (-128) 127 r.day &&
  inRangeOpt (-32768) 32767 r.mcc &&
  inRangeOpt (-2147483648) 2147483647 r.user &&
  inRangeOpt (-128) 127 r.card &&
  amountCastOk r.amount

/-- ASCII lowercasing, the model of `str.to_lowercase()`. -/
def lowerStr (s : String) : String := String.mk (s.data.map Char.toLower)

/-- The fraud flag `(pl.col("Is Fraud?").str.to_lowercase() == "yes")`.
Both `to_lowercase` and `==` propagate null in Polars, so the result is
nullable. -/
def rowIsFraud (r : RawRow) : Option Bool :=
  r.isFraudField.map (fun s => decide (lowerStr s = "yes"))

/-- Value of every derived column of steps 2 and 3 on a row whose strict
casts succeed (an in-range strict cast is the identity on the value). -/
def transformPure (r : RawRow) : TxRow :=
  { user := r.user
    card := r.card
    year := r.year
    month := r.month
    day := r.day
    useChip := r.useChip
    merchantCity := r.merchantCity
    merchantState := r.merchantState
    mcc := r.mcc
    amountClean := r.amount.bind (fun s => parseFloat (cleanAmount s))
    isFraud := rowIsFraud r
    hasError := r.errorsField.isSome
    date := mkDateOpt r.year r.month r.day }

/-- Steps 2 and 3 of the pipeline on one row: the strict casts either all
succeed, yielding the transformed row, or abort the frame with an error. -/
def transformRow (r : RawRow) : Except String TxRow :=
  if rowCastOk r then Except.ok (transformPure r) else Except.error ("strict cast to target dtype failed")

/-- Columnwise evaluation of the transform over the whole frame: any
failed strict cast aborts the frame. -/
def mapRowsE (f : RawRow → Except String TxRow) : List RawRow → Except String (List TxRow)
  | [] => Except.ok []
  | r :: rs =>
    match f r, mapRowsE f rs with
    | Except.error e, _ => Except.error e
    | Except.ok _, Except.error e => Except.error e
    | Except.ok t, Except.ok ts => Except.ok (t :: ts)

/-- The transformed row of a raw row, when its strict casts succeed:
these are the rows that make it into the aggregation. -/
def rowToOption (f : RawRow → Except String TxRow) (r : RawRow) : Option TxRow :=
  match f r with
  | Except.ok t => some t
  | Except.error _ => none

/-- The six-dimension group-by key of step 4:
Year, Month, Merchant State, Use Chip, MCC, is_fraud. -/
structure CubeKey where
  year : Option Int
  month : Option Int
  merchantState : Option String
  useChip : Option String
  mcc : Option Int
  isFraud : Option Bool
deriving DecidableEq

/-- One output row of the BI cube: the key and the five measures. -/
structure CubeRow where
  key : CubeKey
  total_transactions : Nat
  total_amount : ℚ
  avg_amount : Option ℚ
  error_count : Nat
  unique_users : Nat
deriving DecidableEq

/-- Group-by key of a transformed row. -/
def rowKey (t : TxRow) : CubeKey :=
  CubeKey.mk t.year t.month t.merchantState t.useChip t.mcc t.isFraud

/-- The rows of the frame falling in the group of key `k`
(null dimension values form groups of their own, as in Polars). -/
def groupRows (k : CubeKey) (txs : List TxRow) : List TxRow :=
  txs.filter (fun t => rowKey t == k)

/-- The non-null cleaned amounts of a list of rows: `sum` and `mean`
ignore nulls in Polars. -/
def amountsOf (g : List TxRow) : List ℚ := g.filterMap TxRow.amountClean

/-- The aggregation of one group: `pl.len()`, `sum`, `mean` (null on an
all-null group), boolean `sum` of `has_error`, and `n_unique` of `User`
(which counts null as a value). -/
def aggGroup (k : CubeKey) (g : List TxRow) : CubeRow :=
  { key := k
    total_transactions := g.length
    total_amount := (amountsOf g).sum
    avg_amount :=
      if amountsOf g = [] then none
      else some ((amountsOf g).sum / ((amountsOf g).length : ℚ))
    error_count := (g.filter TxRow.hasError).length
    unique_users := ((g.map TxRow.user).dedup).length }

/-- The distinct group keys occurring in the frame. -/
def cubeKeys (txs : List TxRow) : List CubeKey := (txs.map rowKey).dedup

/-- The group-by / agg of step 4: one cube row per distinct key. -/
def buildCube (txs : List TxRow) : List CubeRow :=
  (cubeKeys txs).map (fun k => aggGroup k (groupRows k txs))

/-- The whole lazy pipeline evaluated on the ingested rows: transform
every row (strict casts may abort the frame), then aggregate. -/
def build_optimized_pipeline (rows : List RawRow) : Except String (List CubeRow) :=
  match mapRowsE transformRow rows with
  | Except.error e => Except.error e
  | Except.ok txs => Except.ok (buildCube txs)

/-- The ETL configuration object (pydantic model). -/
structure ETLConfig where
  input_file : String
  output_cube : String
  output_summaries_dir : String
  compression : String
  streaming : Bool
deriving DecidableEq

/-- The `Literal["zstd", "snappy", "lz4"]` constraint on the compression
field. -/
def validCompression (c : String) : Bool :=
  c == "zstd" || c == "snappy" || c == "lz4"

/-- Constructing `ETLConfig`: pydantic validates the compression literal
and raises a validation error on any other value. -/
def mkETLConfig (compression : String) : Except String ETLConfig :=
  if validCompression compression then
    Except.ok (ETLConfig.mk ("data/credit_card.csv") ("data/bi_cube.parquet") ("data/summaries") compression true)
  else Except.error ("invalid compression codec")

/-- The streaming write path: `sink_parquet` emits the cube rows
incrementally into the output file. -/
def sinkParquetWrite (cube : List CubeRow) : List CubeRow :=
  cube.foldl (fun acc c => acc ++ [c]) []

/-- The fallback path: `collect(streaming=True)` materializes the cube and
`write_parquet` writes it in one shot. -/
def collectWriteParquet (cube : List CubeRow) : List CubeRow := cube

/-- Observable outcome of one run of `main()`: the logical content written
to the output file (if any), whether the sink fallback warning was logged,
whether a fatal error was logged, and the process exit code. -/
structure RunResult where
  written : Option (List CubeRow)
  fallbackWarned : Bool
  fatalError : Bool
  exitCode : Nat
deriving DecidableEq

/-- `main()`: build the config (pydantic aborts on an invalid compression
before anything is read), build the pipeline, try `sink_parquet`, and on
any failure of it log a warning and fall back to collect-and-write; a
pipeline error surfaces in both paths and is fatal. `sinkSupported` says
whether the streaming engine supports the graph of this run. -/
def runMain (sinkSupported : Bool) (compressionChoice : String) (rows : List RawRow) : RunResult :=
  match mkETLConfig compressionChoice with
  | Except.error _ => RunResult.mk none false true 1
  | Except.ok _ =>
    match build_optimized_pipeline rows with
    | Except.error _ => RunResult.mk none true true 1
    | Except.ok cube =>
      if sinkSupported then RunResult.mk (some (sinkParquetWrite cube)) false false 0
      else RunResult.mk (some (collectWriteParquet cube)) true false 0

/-!
Concrete inputs used by the witnesses and counterexamples below.
-/

/-- A well-formed raw row: user 1, CA, chip, January 2020, ten dollars. -/
def rowCA10 : RawRow :=
  RawRow.mk (some 1) (some 1) (some 2020) (some 1) (some 5) (some ("$10.00"))
    (some ("Chip")) (some ("LA")) (some ("CA")) (some 5411) none (some ("No"))

/-- A second CA row: user 2, twenty dollars. -/
def rowCA20 : RawRow :=
  RawRow.mk (some 2) (some 1) (some 2020) (some 1) (some 6) (some ("$20.00"))
    (some ("Chip")) (some ("LA")) (some ("CA")) (some 5411) none (some ("No"))

/-- An NY row: user 3, five dollars. -/
def rowNY5 : RawRow :=
  RawRow.mk (some 3) (some 1) (some 2020) (some 1) (some 7) (some ("$5.00"))
    (some ("Chip")) (some ("NYC")) (some ("NY")) (some 5411) none (some ("No"))

/-- The three-row literal input of testable property 6 of the spec. -/
def rows3 : List RawRow := [rowCA10, rowCA20, rowNY5]

/-- The CA, January 2020, chip, MCC 5411, non-fraud group key. -/
def keyCA : CubeKey :=
  CubeKey.mk (some 2020) (some 1) (some ("CA")) (some ("Chip")) (some 5411) (some false)

/-- The NY, January 2020, chip, MCC 5411, non-fraud group key. -/
def keyNY : CubeKey :=
  CubeKey.mk (some 2020) (some 1) (some ("NY")) (some ("Chip")) (some 5411) (some false)

/-- The cube computed from `rows3`. -/
def cube3 : List CubeRow :=
  [CubeRow.mk keyCA 2 30 (some 15) 0 2, CubeRow.mk keyNY 1 5 (some 5) 0 1]

/-- A raw row whose fraud flag field is null. -/
def rowNullFraud : RawRow :=
  RawRow.mk (some 1) (some 1) (some 2020) (some 1) (some 5) (some ("$10.00"))
    (some ("Chip")) (some ("LA")) (some ("CA")) (some 5411) none none

/-- The CA group key with a null fraud dimension. -/
def keyCANullFraud : CubeKey :=
  CubeKey.mk (some 2020) (some 1) (some ("CA")) (some ("Chip")) (some 5411) none

/-- A raw row whose fraud flag field is the mixed-case string Yes. -/
def rowFraudYes : RawRow :=
  RawRow.mk (some 1) (some 1) (some 2020) (some 1) (some 5) (some ("$10.00"))
    (some ("Chip")) (some ("LA")) (some ("CA")) (some 5411) none (some ("Yes"))

/-- A raw row whose amount does not parse after cleaning. -/
def rowBadAmount : RawRow :=
  RawRow.mk (some 1) (some 1) (some 2020) (some 1) (some 5) (some ("$abc"))
    (some ("Chip")) (some ("LA")) (some ("CA")) (some 5411) none (some ("No"))

/-- A raw row with a null amount, in the same group as `rowCA10`. -/
def rowNullAmount : RawRow :=
  RawRow.mk (some 2) (some 1) (some 2020) (some 1) (some 6) none
    (some ("Chip")) (some ("LA")) (some ("CA")) (some 5411) none (some ("No"))

/-- A raw row dated the 31st of February 2021. -/
def rowFeb31 : RawRow :=
  RawRow.mk (some 1) (some 1) (some 2021) (some 2) (some 31) (some ("$10.00"))
    (some ("Chip")) (some ("LA")) (some ("CA")) (some 5411) none (some ("No"))

/-- The transformed rows of `rows3`. -/
def txs3 : List TxRow := [transformPure rowCA10, transformPure rowCA20, transformPure rowNY5]

/-- A raw row with an integral nine-dollar amount, in the same group as
`rowNullAmount`. -/
def rowCA9 : RawRow :=
  RawRow.mk (some 1) (some 1) (some 2020) (some 1) (some 5) (some ("$9"))
    (some ("Chip")) (some ("LA")) (some ("CA")) (some 5411) none (some ("No"))

/-- The transformed rows of the two-row input with one null amount. -/
def txsC4 : List TxRow := [transformPure rowCA9, transformPure rowNullAmount]

/-- The group key shared by `rowCA9` and `rowNullAmount`. -/
def keyC4 : CubeKey := rowKey (transformPure rowCA9)

/-- The cube row aggregating `txsC4`. -/
def cubeRowC4 : CubeRow := aggGroup keyC4 (groupRows keyC4 txsC4)

/-!
Helper lemmas about the aggregation combinators.
-/

/-- Splitting a mapped sum along a boolean predicate. -/
theorem sum_map_filter_split {α M : Type} [AddCommMonoid M] (p : α → Bool) (f : α → M) :
    ∀ l : List α,
      ((l.filter p).map f).sum + ((l.filter (fun x => !(p x))).map f).sum = (l.map f).sum
  | [] => by simp
  | a :: t => by
    by_cases h : p a = true
    · simp only [List.filter_cons, h, Bool.not_true, if_true, if_false, Bool.false_eq_true,
        List.map_cons, List.sum_cons]
      rw [add_assoc, sum_map_filter_split p f t]
    · have h2 : p a = false := Bool.eq_false_iff.mpr h
      simp only [List.filter_cons, h2, Bool.not_false, if_true, if_false, Bool.false_eq_true,
        List.map_cons, List.sum_cons]
      rw [add_left_comm, sum_map_filter_split p f t]

/-- Filtering by key `k2` ignores a prior removal of the rows of a
different key. -/
theorem filter_not_filter_eq {α : Type} {p q : α → Bool}
    (hpq : ∀ x, q x = true → p x = false) :
    ∀ l : List α, (l.filter (fun x => !(p x))).filter q = l.filter q
  | [] => rfl
  | a :: t => by
    by_cases hq : q a = true
    · have hp : p a = false := hpq a hq
      simp [List.filter_cons, hp, hq, filter_not_filter_eq hpq t]
    · by_cases hp : p a = true <;>
        simp [List.filter_cons, hp, hq, filter_not_filter_eq hpq t]

/-- Grouping a list by a key and summing a measure group by group gives
the global sum, provided the key list is duplicate-free and covers the
list. -/
theorem partition_sum {α κ M : Type} [DecidableEq κ] [AddCommMonoid M]
    (key : α → κ) (f : α → M) :
    ∀ (K : List κ) (l : List α), K.Nodup → (∀ x, x ∈ l → key x ∈ K) →
      (K.map (fun k => ((l.filter (fun x => key x == k)).map f).sum)).sum = (l.map f).sum
  | [], l, _, hcov => by
    cases l with
    | nil => simp
    | cons a t => exact absurd (hcov a (by simp)) (by simp)
  | k :: K2, l, hnd, hcov => by
    have hnd2 : K2.Nodup := (List.nodup_cons.mp hnd).2
    have hkK2 : k ∉ K2 := (List.nodup_cons.mp hnd).1
    have hcov2 : ∀ x, x ∈ l.filter (fun x => !(key x == k)) → key x ∈ K2 := by
      intro x hx
      have hx2 := List.mem_filter.mp hx
      have hxk : key x ≠ k := by
        intro hcontra
        have := hx2.2
        rw [hcontra] at this
        simp at this
      cases List.mem_cons.mp (hcov x hx2.1) with
      | inl heq => exact absurd heq hxk
      | inr hmem => exact hmem
    have hfix : ∀ k2, k2 ∈ K2 →
        (l.filter (fun x => !(key x == k))).filter (fun x => key x == k2) =
          l.filter (fun x => key x == k2) := by
      intro k2 hk2
      apply filter_not_filter_eq
      intro x hqx
      have hx2 : key x = k2 := by simpa using hqx
      have hne : k2 ≠ k := by
        intro hcontra
        rw [hcontra] at hk2
        exact hkK2 hk2
      simp [hx2, hne]
    have hrec := partition_sum key f K2 (l.filter (fun x => !(key x == k))) hnd2 hcov2
    have hmapc : K2.map (fun k2 => ((l.filter (fun x => key x == k2)).map f).sum) =
        K2.map (fun k2 =>
          (((l.filter (fun x => !(key x == k))).filter (fun x => key x == k2)).map f).sum) := by
      apply List.map_congr_left
      intro k2 hk2
      rw [hfix k2 hk2]
    rw [List.map_cons, List.sum_cons, hmapc, hrec]
    exact sum_map_filter_split (fun x => key x == k) f l

/-- A successful frame transform is the row-wise transform. -/
theorem mapRowsE_ok_eq (f : RawRow → Except String TxRow) :
    ∀ (rows : List RawRow) (ts : List TxRow), mapRowsE f rows = Except.ok ts →
      ts = rows.filterMap (rowToOption f)
  | [], ts, h => by
    simp only [mapRowsE] at h
    injection h with h
    simp [← h]
  | r :: rs, ts, h => by
    simp only [mapRowsE] at h
    cases hf : f r with
    | error e => rw [hf] at h; exact Except.noConfusion h
    | ok t =>
      rw [hf] at h
      cases hrec : mapRowsE f rs with
      | error e => rw [hrec] at h; exact Except.noConfusion h
      | ok ts2 =>
        rw [hrec] at h
        injection h with h
        subst h
        have hhead : rowToOption f r = some t := by simp [rowToOption, hf]
        rw [List.filterMap_cons, hhead]
        rw [← mapRowsE_ok_eq f rs ts2 hrec]

/-- On a successfully transformed frame, every row transformed. -/
theorem mapRowsE_ok_isSome (f : RawRow → Except String TxRow) :
    ∀ (rows : List RawRow) (ts : List TxRow), mapRowsE f rows = Except.ok ts →
      ∀ r, r ∈ rows → (rowToOption f r).isSome = true
  | [], _, _, r, hr => absurd hr (List.not_mem_nil r)
  | a :: rs, ts, h, r, hr => by
    simp only [mapRowsE] at h
    cases hf : f a with
    | error e => rw [hf] at h; exact Except.noConfusion h
    | ok t =>
      rw [hf] at h
      cases hrec : mapRowsE f rs with
      | error e => rw [hrec] at h; exact Except.noConfusion h
      | ok ts2 =>
        cases List.mem_cons.mp hr with
        | inl heq => subst heq; simp [rowToOption, hf]
        | inr hmem => exact mapRowsE_ok_isSome f rs ts2 hrec r hmem

/-- One failing strict cast aborts the whole frame. -/
theorem mapRowsE_error_of_mem (f : RawRow → Except String TxRow) :
    ∀ (rows : List RawRow) (r : RawRow), r ∈ rows → (∃ e, f r = Except.error e) →
      ∃ msg, mapRowsE f rows = Except.error msg
  | [], r, hr, _ => absurd hr (List.not_mem_nil r)
  | a :: rs, r, hr, he => by
    obtain ⟨e, hfe⟩ := he
    cases List.mem_cons.mp hr with
    | inl heq =>
      subst heq
      exact ⟨e, by simp [mapRowsE, hfe]⟩
    | inr hmem =>
      obtain ⟨msg, hmsg⟩ := mapRowsE_error_of_mem f rs r hmem ⟨e, hfe⟩
      cases hfa : f a with
      | error e2 => exact ⟨e2, by simp [mapRowsE, hfa]⟩
      | ok t => exact ⟨msg, by simp [mapRowsE, hfa, hmsg]⟩

/-- `filterMap` by a function that is defined everywhere on the list
keeps the length. -/
theorem length_filterMap_of_isSome {α β : Type} (h : α → Option β) :
    ∀ l : List α, (∀ t, t ∈ l → (h t).isSome = true) → (l.filterMap h).length = l.length
  | [], _ => rfl
  | a :: t, hall => by
    have ha := hall a (by simp)
    cases hv : h a with
    | none => rw [hv] at ha; simp at ha
    | some b =>
      simp only [List.filterMap_cons, hv, List.length_cons]
      rw [length_filterMap_of_isSome h t (fun x hx => hall x (by simp [hx]))]

/-- The null-skipping projection keeps exactly the rows with a non-null
value. -/
theorem length_filterMap_eq_length_filter {α β : Type} (h : α → Option β) :
    ∀ l : List α, (l.filterMap h).length = (l.filter (fun x => (h x).isSome)).length
  | [] => rfl
  | a :: t => by
    cases hv : h a with
    | none =>
      simp [List.filterMap_cons, List.filter_cons, hv,
        length_filterMap_eq_length_filter h t]
    | some b =>
      simp [List.filterMap_cons, List.filter_cons, hv,
        length_filterMap_eq_length_filter h t]

/-- Summing null-skipping values equals summing with nulls read as zero. -/
theorem sum_getD_filterMap {α : Type} (h : α → Option ℚ) :
    ∀ l : List α, (l.map (fun t => (h t).getD 0)).sum = (l.filterMap h).sum
  | [] => rfl
  | a :: t => by
    cases hv : h a <;>
      simp [List.filterMap_cons, hv, sum_getD_filterMap h t]

/-- The length of a list as a sum of ones. -/
theorem sum_map_one {α : Type} : ∀ l : List α, (l.map (fun _ => (1 : ℕ))).sum = l.length
  | [] => rfl
  | a :: t => by simp [sum_map_one t, Nat.add_comm]

/-- Every cube row is the aggregation of the group of one occurring key. -/
theorem mem_buildCube {txs : List TxRow} {c : CubeRow} (hc : c ∈ buildCube txs) :
    ∃ k, k ∈ cubeKeys txs ∧ c = aggGroup k (groupRows k txs) := by
  obtain ⟨k, hk, hck⟩ := List.mem_map.mp hc
  exact ⟨k, hk, hck.symm⟩

/-- The group of a key occurring in the frame is non-empty. -/
theorem groupRows_ne_nil {txs : List TxRow} {k : CubeKey} (hk : k ∈ cubeKeys txs) :
    groupRows k txs ≠ [] := by
  have hk2 : k ∈ txs.map rowKey := List.mem_dedup.mp hk
  obtain ⟨t, ht, hkt⟩ := List.mem_map.mp hk2
  intro hnil
  have hmem : t ∈ groupRows k txs := List.mem_filter.mpr ⟨ht, by simp [hkt]⟩
  rw [hnil] at hmem
  exact List.not_mem_nil t hmem

/-- Every measure of a group is invariant under reordering the group. -/
theorem aggGroup_eq_of_perm (k : CubeKey) {g1 g2 : List TxRow} (hp : g1.Perm g2) :
    aggGroup k g1 = aggGroup k g2 := by
  have hlen : g1.length = g2.length := hp.length_eq
  have ham : (amountsOf g1).Perm (amountsOf g2) := hp.filterMap TxRow.amountClean
  have hsum : (amountsOf g1).sum = (amountsOf g2).sum := ham.sum_eq
  have hlam : (amountsOf g1).length = (amountsOf g2).length := ham.length_eq
  have herr : (g1.filter TxRow.hasError).length = (g2.filter TxRow.hasError).length :=
    (hp.filter TxRow.hasError).length_eq
  have huni : ((g1.map TxRow.user).dedup).length = ((g2.map TxRow.user).dedup).length :=
    ((hp.map TxRow.user).dedup).length_eq
  have hnil : amountsOf g1 = [] ↔ amountsOf g2 = [] := by
    rw [← List.length_eq_zero, ← List.length_eq_zero, hlam]
  by_cases h0 : amountsOf g1 = []
  · have h02 : amountsOf g2 = [] := hnil.mp h0
    simp [aggGroup, h0, h02, hlen, herr, huni]
  · have h02 : ¬(amountsOf g2 = []) := fun hh => h0 (hnil.mpr hh)
    simp [aggGroup, h0, h02, hlen, hsum, hlam, herr, huni]

/-- Reordering the transformed frame only reorders the cube rows. -/
theorem buildCube_perm {t1 t2 : List TxRow} (hp : t1.Perm t2) :
    (buildCube t1).Perm (buildCube t2) := by
  have hkeys : (cubeKeys t1).Perm (cubeKeys t2) := (hp.map rowKey).dedup
  have hgroup : ∀ k, aggGroup k (groupRows k t1) = aggGroup k (groupRows k t2) :=
    fun k => aggGroup_eq_of_perm k (hp.filter (fun t => rowKey t == k))
  unfold buildCube
  have hfun : (fun k => aggGroup k (groupRows k t2)) = fun k => aggGroup k (groupRows k t1) :=
    funext (fun k => (hgroup k).symm)
  rw [hfun]
  exact hkeys.map _

/-- Appending the cube rows one at a time writes the whole cube. -/
theorem foldl_append_singleton {α : Type} :
    ∀ (l acc : List α), l.foldl (fun a c => a ++ [c]) acc = acc ++ l
  | [], acc => by simp
  | a :: t, acc => by
    rw [List.foldl_cons, foldl_append_singleton t (acc ++ [a])]
    simp

/-!
Claim theorems.
-/

/-- Claim C1: conservation of amount. Whenever the pipeline produces a
cube, the sum of `total_amount` over all cube rows equals the sum of the
successfully parsed cleaned amounts over all rows that survived ingestion
(the transformed rows; amounts that were null contribute nothing). -/
theorem claim_c1_amount_conservation (rows : List RawRow) (cube : List CubeRow)
    (h : build_optimized_pipeline rows = Except.ok cube) :
    (cube.map CubeRow.total_amount).sum =
      ((rows.filterMap (rowToOption transformRow)).filterMap TxRow.amountClean).sum := by
  unfold build_optimized_pipeline at h
  cases hm : mapRowsE transformRow rows with
  | error e => rw [hm] at h; exact Except.noConfusion h
  | ok txs =>
    rw [hm] at h
    injection h with h
    subst h
    rw [← mapRowsE_ok_eq transformRow rows txs hm]
    have hmap : (buildCube txs).map CubeRow.total_amount =
        (cubeKeys txs).map (fun k => (amountsOf (groupRows k txs)).sum) := by
      simp only [buildCube, List.map_map]
      rfl
    rw [hmap]
    have hpart := partition_sum rowKey (fun t => (t.amountClean).getD 0) (cubeKeys txs) txs
      (List.nodup_dedup _) (fun x hx => List.mem_dedup.mpr (List.mem_map_of_mem rowKey hx))
    have hfun : (fun k => (amountsOf (groupRows k txs)).sum) =
        fun k => ((txs.filter (fun x => rowKey x == k)).map (fun t => (t.amountClean).getD 0)).sum :=
      funext (fun k => (sum_getD_filterMap TxRow.amountClean (groupRows k txs)).symm)
    rw [hfun, hpart, sum_getD_filterMap]

/-- Claim C5: conservation of count. Whenever the pipeline produces a
cube, the sum of `total_transactions` over all cube rows equals the
number of rows that survived ingestion. -/
theorem claim_c5_count_conservation (rows : List RawRow) (cube : List CubeRow)
    (h : build_optimized_pipeline rows = Except.ok cube) :
    (cube.map CubeRow.total_transactions).sum = rows.length := by
  unfold build_optimized_pipeline at h
  cases hm : mapRowsE transformRow rows with
  | error e => rw [hm] at h; exact Except.noConfusion h
  | ok txs =>
    rw [hm] at h
    injection h with h
    subst h
    have hlen : txs.length = rows.length := by
      rw [mapRowsE_ok_eq transformRow rows txs hm]
      exact length_filterMap_of_isSome (rowToOption transformRow) rows
        (mapRowsE_ok_isSome transformRow rows txs hm)
    rw [← hlen]
    have hmap : (buildCube txs).map CubeRow.total_transactions =
        (cubeKeys txs).map (fun k => (groupRows k txs).length) := by
      simp only [buildCube, List.map_map]
      rfl
    rw [hmap]
    have hpart := partition_sum rowKey (fun _ => (1 : ℕ)) (cubeKeys txs) txs
      (List.nodup_dedup _) (fun x hx => List.mem_dedup.mpr (List.mem_map_of_mem rowKey hx))
    have hfun : (fun k => (groupRows k txs).length) =
        fun k => ((txs.filter (fun x => rowKey x == k)).map (fun _ => (1 : ℕ))).sum :=
      funext (fun k => (sum_map_one (groupRows k txs)).symm)
    rw [hfun, hpart, sum_map_one]

/-- Claim C10: per-row measure invariants. Every cube row has at least
one transaction, an error count at most the transaction count, and a
distinct-user count between one and the transaction count. -/
theorem claim_c10_measure_bounds (rows : List RawRow) (cube : List CubeRow) (c : CubeRow)
    (h : build_optimized_pipeline rows = Except.ok cube) (hc : c ∈ cube) :
    1 ≤ c.total_transactions ∧ c.error_count ≤ c.total_transactions ∧
      1 ≤ c.unique_users ∧ c.unique_users ≤ c.total_transactions := by
  unfold build_optimized_pipeline at h
  cases hm : mapRowsE transformRow rows with
  | error e => rw [hm] at h; exact Except.noConfusion h
  | ok txs =>
    rw [hm] at h
    injection h with h
    subst h
    obtain ⟨k, hk, hck⟩ := mem_buildCube hc
    subst hck
    have hne := groupRows_ne_nil hk
    refine ⟨?_, ?_, ?_, ?_⟩
    · exact List.length_pos.mpr hne
    · exact List.length_filter_le TxRow.hasError (groupRows k txs)
    · apply List.length_pos.mpr
      intro hnil
      exact hne (List.map_eq_nil_iff.mp ((List.dedup_eq_nil _).mp hnil))
    · have hsl := (List.dedup_sublist ((groupRows k txs).map TxRow.user)).length_le
      rw [List.length_map] at hsl
      exact hsl

/-- A successful frame transform makes the pipeline emit the aggregated
cube of the transformed rows. -/
theorem build_ok_of_mapRows (rows : List RawRow) (txs : List TxRow)
    (hm : mapRowsE transformRow rows = Except.ok txs) :
    build_optimized_pipeline rows = Except.ok (buildCube txs) := by
  unfold build_optimized_pipeline
  rw [hm]

/-- Claim C1 witness at the three-row literal input of the spec. -/
theorem claim_c1_witness :
    build_optimized_pipeline rows3 = Except.ok (buildCube txs3) ∧
    ((buildCube txs3).map CubeRow.total_amount).sum =
      ((rows3.filterMap (rowToOption transformRow)).filterMap TxRow.amountClean).sum :=
  ⟨build_ok_of_mapRows rows3 txs3 rfl,
   claim_c1_amount_conservation rows3 (buildCube txs3) (build_ok_of_mapRows rows3 txs3 rfl)⟩

/-- Claim C5 witness at the three-row literal input of the spec. -/
theorem claim_c5_witness :
    build_optimized_pipeline rows3 = Except.ok (buildCube txs3) ∧
    ((buildCube txs3).map CubeRow.total_transactions).sum = rows3.length :=
  ⟨build_ok_of_mapRows rows3 txs3 rfl,
   claim_c5_count_conservation rows3 (buildCube txs3) (build_ok_of_mapRows rows3 txs3 rfl)⟩

/-- Claim C10 witness at the CA group of the three-row input. -/
theorem claim_c10_witness :
    aggGroup (rowKey (transformPure rowCA10)) (groupRows (rowKey (transformPure rowCA10)) txs3)
      ∈ buildCube txs3 ∧
    (1 ≤ (aggGroup (rowKey (transformPure rowCA10))
        (groupRows (rowKey (transformPure rowCA10)) txs3)).total_transactions ∧
      (aggGroup (rowKey (transformPure rowCA10))
        (groupRows (rowKey (transformPure rowCA10)) txs3)).error_count ≤
        (aggGroup (rowKey (transformPure rowCA10))
          (groupRows (rowKey (transformPure rowCA10)) txs3)).total_transactions ∧
      1 ≤ (aggGroup (rowKey (transformPure rowCA10))
        (groupRows (rowKey (transformPure rowCA10)) txs3)).unique_users ∧
      (aggGroup (rowKey (transformPure rowCA10))
        (groupRows (rowKey (transformPure rowCA10)) txs3)).unique_users ≤
        (aggGroup (rowKey (transformPure rowCA10))
          (groupRows (rowKey (transformPure rowCA10)) txs3)).total_transactions) := by
  have hk : rowKey (transformPure rowCA10) ∈ cubeKeys txs3 :=
    List.mem_dedup.mpr (List.mem_map_of_mem rowKey (by simp [txs3]))
  exact ⟨List.mem_map_of_mem _ hk,
    claim_c10_measure_bounds rows3 (buildCube txs3)
      (aggGroup (rowKey (transformPure rowCA10)) (groupRows (rowKey (transformPure rowCA10)) txs3))
      (build_ok_of_mapRows rows3 txs3 rfl) (List.mem_map_of_mem _ hk)⟩

/-- A successful row transform yields exactly the derived row. -/
theorem transformRow_ok_eq (r : RawRow) (tx : TxRow) (h : transformRow r = Except.ok tx) :
    tx = transformPure r := by
  unfold transformRow at h
  by_cases hok : rowCastOk r = true
  · rw [if_pos hok] at h
    injection h with h2
    exact h2.symm
  · rw [if_neg hok] at h
    exact Except.noConfusion h

/-- Claim C2 (amended): the fraud dimension of a transformed row is the
null-propagating comparison of the lowercased flag with yes: a non-null
flag is counted under true exactly when it lowercases to yes, but a null
flag yields a null fraud dimension (its own group), not false. -/
theorem claim_c2_fraud_flag (r : RawRow) (tx : TxRow) (h : transformRow r = Except.ok tx) :
    (rowKey tx).isFraud = r.isFraudField.map (fun s => decide (lowerStr s = "yes")) ∧
    (∀ s, r.isFraudField = some s → ((rowKey tx).isFraud = some true ↔ lowerStr s = "yes")) ∧
    (r.isFraudField = none → (rowKey tx).isFraud = none) := by
  have htx := transformRow_ok_eq r tx h
  subst htx
  refine ⟨rfl, ?_, ?_⟩
  · intro s hs
    simp [rowKey, transformPure, rowIsFraud, hs]
  · intro hs
    simp [rowKey, transformPure, rowIsFraud, hs]

/-- Claim C2 counterexample: a row with a null fraud flag is aggregated
under a null is_fraud dimension, not under is_fraud false. -/
theorem claim_c2_counterexample :
    build_optimized_pipeline [rowNullFraud] =
      Except.ok (buildCube [transformPure rowNullFraud]) ∧
    (buildCube [transformPure rowNullFraud]).map (fun c => (CubeRow.key c).isFraud) = [none] ∧
    ¬((none : Option Bool) = some false) :=
  ⟨build_ok_of_mapRows [rowNullFraud] [transformPure rowNullFraud] rfl, rfl, by decide⟩

/-- Claim C2 witness: a mixed-case Yes flag is counted under true. -/
theorem claim_c2_witness :
    transformRow rowFraudYes = Except.ok (transformPure rowFraudYes) ∧
    ((rowKey (transformPure rowFraudYes)).isFraud = some true ↔ lowerStr ("Yes") = "yes") :=
  ⟨rfl, (claim_c2_fraud_flag rowFraudYes (transformPure rowFraudYes) rfl).2.1 ("Yes") rfl⟩

/-- Claim C3 (amended): an amount string that does not parse after
cleaning aborts the pipeline through the strict cast, and the run exits
with code 1 writing nothing, instead of treating the amount as null. -/
theorem claim_c3_parse_failure_fatal (rows : List RawRow) (r : RawRow) (s : String)
    (hr : r ∈ rows) (ha : r.amount = some s) (hp : parseFloat (cleanAmount s) = none)
    (sinkSupported : Bool) (comp : String) (hcomp : validCompression comp = true) :
    (∃ msg, build_optimized_pipeline rows = Except.error msg) ∧
    (runMain sinkSupported comp rows).written = none ∧
    (runMain sinkSupported comp rows).exitCode = 1 := by
  have hcast : rowCastOk r = false := by
    simp [rowCastOk, amountCastOk, ha, hp]
  have herr : ∃ e, transformRow r = Except.error e :=
    ⟨("strict cast to target dtype failed"), by simp [transformRow, hcast]⟩
  obtain ⟨msg, hmsg⟩ := mapRowsE_error_of_mem transformRow rows r hr herr
  have hbuild : build_optimized_pipeline rows = Except.error msg := by
    unfold build_optimized_pipeline
    rw [hmsg]
  refine ⟨⟨msg, hbuild⟩, ?_, ?_⟩ <;> simp [runMain, mkETLConfig, hcomp, hbuild]

/-- Claim C3 counterexample: on an unparseable amount the run does not
complete with a null amount; it errors out and exits with code 1. -/
theorem claim_c3_counterexample :
    build_optimized_pipeline [rowBadAmount] =
      Except.error ("strict cast to target dtype failed") ∧
    runMain true ("zstd") [rowBadAmount] = RunResult.mk none true true 1 :=
  ⟨rfl, rfl⟩

/-- Claim C3 witness at the unparseable-amount row. -/
theorem claim_c3_witness :
    (runMain true ("zstd") [rowBadAmount]).written = none ∧
    (runMain true ("zstd") [rowBadAmount]).exitCode = 1 :=
  ⟨(claim_c3_parse_failure_fatal [rowBadAmount] rowBadAmount ("$abc") (by simp) rfl
      (by decide) true ("zstd") (by decide)).2.1,
   (claim_c3_parse_failure_fatal [rowBadAmount] rowBadAmount ("$abc") (by simp) rfl
      (by decide) true ("zstd") (by decide)).2.2⟩

/-- Claim C4 (amended): `avg_amount` is the null-skipping mean of the
group: it is null when every row of the group has a null cleaned amount,
and otherwise equals `total_amount` divided by the number of rows of the
group whose cleaned amount is non-null; in particular it equals
`total_amount / total_transactions` whenever every row of the group has
a non-null cleaned amount. -/
theorem claim_c4_avg_amount (txs : List TxRow) (k : CubeKey) (hk : k ∈ cubeKeys txs) :
    aggGroup k (groupRows k txs) ∈ buildCube txs ∧
    ((∀ t, t ∈ groupRows k txs → (t.amountClean).isSome = false) →
      (aggGroup k (groupRows k txs)).avg_amount = none) ∧
    (∀ t0, t0 ∈ groupRows k txs → (t0.amountClean).isSome = true →
      (aggGroup k (groupRows k txs)).avg_amount =
        some ((aggGroup k (groupRows k txs)).total_amount /
          (((groupRows k txs).filter (fun t => (t.amountClean).isSome)).length : ℚ))) ∧
    ((∀ t, t ∈ groupRows k txs → (t.amountClean).isSome = true) →
      (aggGroup k (groupRows k txs)).avg_amount =
        some ((aggGroup k (groupRows k txs)).total_amount /
          ((aggGroup k (groupRows k txs)).total_transactions : ℚ))) := by
  have hcnt : (amountsOf (groupRows k txs)).length =
      ((groupRows k txs).filter (fun t => (t.amountClean).isSome)).length :=
    length_filterMap_eq_length_filter TxRow.amountClean (groupRows k txs)
  refine ⟨List.mem_map_of_mem _ hk, ?_, ?_, ?_⟩
  · intro hnone
    have h0 : amountsOf (groupRows k txs) = [] := by
      apply List.filterMap_eq_nil_iff.mpr
      intro t ht
      cases hx : t.amountClean with
      | none => rfl
      | some v =>
        have hf := hnone t ht
        rw [hx] at hf
        simp at hf
    simp [aggGroup, h0]
  · intro t0 ht0 hs0
    have hne : ¬(amountsOf (groupRows k txs) = []) := by
      intro h0
      obtain ⟨v, hv⟩ := Option.isSome_iff_exists.mp hs0
      have hmem : v ∈ amountsOf (groupRows k txs) :=
        List.mem_filterMap.mpr ⟨t0, ht0, hv⟩
      rw [h0] at hmem
      exact List.not_mem_nil v hmem
    simp only [aggGroup]
    rw [if_neg hne, hcnt]
  · intro hall
    have hne := groupRows_ne_nil hk
    have hfe : (groupRows k txs).filter (fun t => (t.amountClean).isSome) =
        groupRows k txs :=
      List.filter_eq_self.mpr hall
    have hnn : ¬(amountsOf (groupRows k txs) = []) := by
      intro h0
      have hl : (amountsOf (groupRows k txs)).length = 0 := by
        rw [h0]
        rfl
      rw [hcnt, hfe] at hl
      exact hne (List.length_eq_zero.mp hl)
    simp only [aggGroup]
    rw [if_neg hnn, hcnt, hfe]

/-- Claim C4 counterexample: a group holding one nine-dollar row and one
null-amount row has avg_amount 9, not 9 / 2. -/
theorem claim_c4_counterexample :
    build_optimized_pipeline [rowCA9, rowNullAmount] = Except.ok (buildCube txsC4) ∧
    cubeRowC4 ∈ buildCube txsC4 ∧
    cubeRowC4.total_transactions = 2 ∧
    cubeRowC4.total_amount = 9 ∧
    cubeRowC4.avg_amount = some 9 ∧
    ¬(cubeRowC4.avg_amount =
        some (cubeRowC4.total_amount / (cubeRowC4.total_transactions : ℚ))) := by
  have hg : groupRows keyC4 txsC4 = [transformPure rowCA9, transformPure rowNullAmount] := rfl
  have hv9 : (transformPure rowCA9).amountClean = some (9 : ℚ) := by
    show some ((natOfDigits (('9') :: []) : ℕ) : ℚ) = some (9 : ℚ)
    have hn : natOfDigits (('9') :: []) = 9 := by decide
    rw [hn]
    norm_num
  have hvn : (transformPure rowNullAmount).amountClean = none := rfl
  have ham : amountsOf (groupRows keyC4 txsC4) = [(9 : ℚ)] := by
    rw [hg]
    simp [amountsOf, List.filterMap_cons, hv9, hvn]
  have hlen : (groupRows keyC4 txsC4).length = 2 := by
    rw [hg]
    rfl
  refine ⟨build_ok_of_mapRows [rowCA9, rowNullAmount] txsC4 rfl, ?_, ?_, ?_, ?_, ?_⟩
  · exact List.mem_map_of_mem _
      (List.mem_dedup.mpr (List.mem_map_of_mem rowKey (by simp [txsC4])))
  · exact hlen
  · show (amountsOf (groupRows keyC4 txsC4)).sum = 9
    rw [ham]
    simp
  · simp only [cubeRowC4, aggGroup, ham]
    norm_num
  · simp only [cubeRowC4, aggGroup, ham, hlen]
    norm_num

/-- Claim C4 witness: on the all-parsed CA group of the two CA rows the
mean is the sum over the count. -/
theorem claim_c4_witness :
    rowKey (transformPure rowCA10) ∈ cubeKeys txs3 ∧
    (aggGroup (rowKey (transformPure rowCA10))
        (groupRows (rowKey (transformPure rowCA10)) txs3)).avg_amount =
      some ((aggGroup (rowKey (transformPure rowCA10))
          (groupRows (rowKey (transformPure rowCA10)) txs3)).total_amount /
        ((aggGroup (rowKey (transformPure rowCA10))
            (groupRows (rowKey (transformPure rowCA10)) txs3)).total_transactions : ℚ)) :=
  ⟨List.mem_dedup.mpr (List.mem_map_of_mem rowKey (by simp [txs3])),
   (claim_c4_avg_amount txs3 (rowKey (transformPure rowCA10))
     (List.mem_dedup.mpr (List.mem_map_of_mem rowKey (by simp [txs3])))).2.2.2
     (by
       intro t ht
       have hg : groupRows (rowKey (transformPure rowCA10)) txs3 =
           [transformPure rowCA10, transformPure rowCA20] := rfl
       rw [hg] at ht
       simp only [List.mem_cons, List.not_mem_nil, or_false] at ht
       rcases ht with rfl | rfl
       · decide
       · decide)⟩

/-- Claim C6: once the aggregation succeeds, the streaming sink and the
collect-then-write fallback write the same logical content, the fallback
is taken on sink failure with a logged warning, and the run still exits
with code 0. -/
theorem claim_c6_sink_equivalence (rows : List RawRow) (cube : List CubeRow) (comp : String)
    (hcomp : validCompression comp = true)
    (h : build_optimized_pipeline rows = Except.ok cube) :
    (runMain true comp rows).written = some cube ∧
    (runMain false comp rows).written = some cube ∧
    sinkParquetWrite cube = collectWriteParquet cube ∧
    (runMain false comp rows).fallbackWarned = true ∧
    (runMain false comp rows).fatalError = false ∧
    (runMain false comp rows).exitCode = 0 := by
  have hsink : sinkParquetWrite cube = cube := by
    unfold sinkParquetWrite
    rw [foldl_append_singleton]
    simp
  refine ⟨?_, ?_, ?_, ?_, ?_, ?_⟩ <;>
    simp [runMain, mkETLConfig, hcomp, h, hsink, collectWriteParquet]

/-- Claim C6 witness at the three-row input. -/
theorem claim_c6_witness :
    validCompression ("zstd") = true ∧
    (runMain true ("zstd") rows3).written = some (buildCube txs3) ∧
    (runMain false ("zstd") rows3).written = some (buildCube txs3) ∧
    (runMain false ("zstd") rows3).exitCode = 0 :=
  ⟨by decide,
   (claim_c6_sink_equivalence rows3 (buildCube txs3) ("zstd") (by decide)
     (build_ok_of_mapRows rows3 txs3 rfl)).1,
   (claim_c6_sink_equivalence rows3 (buildCube txs3) ("zstd") (by decide)
     (build_ok_of_mapRows rows3 txs3 rfl)).2.1,
   (claim_c6_sink_equivalence rows3 (buildCube txs3) ("zstd") (by decide)
     (build_ok_of_mapRows rows3 txs3 rfl)).2.2.2.2.2⟩

/-- Claim C7: a row whose year, month and day do not form a valid
calendar date gets a null composite date, and a non-null composite date
always carries exactly the row's own components, never a wrapped date. -/
theorem claim_c7_invalid_date (r : RawRow) (tx : TxRow) (y m d : Int)
    (h : transformRow r = Except.ok tx)
    (hy : r.year = some y) (hm2 : r.month = some m) (hd : r.day = some d) :
    (validDate y m d = false → tx.date = none) ∧
    (∀ dt, tx.date = some dt →
      validDate y m d = true ∧ dt.year = y ∧ dt.month = m ∧ dt.day = d) := by
  have htx := transformRow_ok_eq r tx h
  subst htx
  have hdate : (transformPure r).date = mkDate y m d := by
    simp [transformPure, mkDateOpt, hy, hm2, hd]
  constructor
  · intro hv
    rw [hdate]
    simp [mkDate, hv]
  · intro dt hdt
    rw [hdate] at hdt
    unfold mkDate at hdt
    by_cases hv : validDate y m d = true
    · rw [if_pos hv] at hdt
      injection hdt with hdt
      exact ⟨hv, by rw [← hdt], by rw [← hdt], by rw [← hdt]⟩
    · rw [if_neg hv] at hdt
      exact Option.noConfusion hdt

/-- Claim C7 witness: the 31st of February 2021 yields a null date. -/
theorem claim_c7_witness :
    transformRow rowFeb31 = Except.ok (transformPure rowFeb31) ∧
    validDate 2021 2 31 = false ∧
    (transformPure rowFeb31).date = none :=
  ⟨rfl, by decide,
   (claim_c7_invalid_date rowFeb31 (transformPure rowFeb31) 2021 2 31 rfl rfl rfl rfl).1
     (by decide)⟩

/-- Claim C8: an invalid compression literal makes the configuration
constructor fail, and the run aborts with exit code 1 before touching any
input: the outcome does not depend on the rows at all. -/
theorem claim_c8_config_fail_fast (comp : String) (hcomp : validCompression comp = false)
    (sinkSupported : Bool) (rows : List RawRow) :
    mkETLConfig comp = Except.error ("invalid compression codec") ∧
    runMain sinkSupported comp rows = runMain sinkSupported comp [] ∧
    (runMain sinkSupported comp rows).written = none ∧
    (runMain sinkSupported comp rows).exitCode = 1 := by
  refine ⟨?_, ?_, ?_, ?_⟩ <;> simp [runMain, mkETLConfig, hcomp]

/-- Claim C8 witness at the unsupported codec gzip. -/
theorem claim_c8_witness :
    validCompression ("gzip") = false ∧
    mkETLConfig ("gzip") = Except.error ("invalid compression codec") ∧
    (runMain true ("gzip") rows3).written = none ∧
    (runMain true ("gzip") rows3).exitCode = 1 :=
  ⟨by decide,
   (claim_c8_config_fail_fast ("gzip") (by decide) true rows3).1,
   (claim_c8_config_fail_fast ("gzip") (by decide) true rows3).2.2.1,
   (claim_c8_config_fail_fast ("gzip") (by decide) true rows3).2.2.2⟩

/-- Claim C9: the cube is deterministic up to row order: any two runs
whose ingested rows agree up to ordering produce cubes that agree up to
ordering, with identical measure values. -/
theorem claim_c9_determinism (rows1 rows2 : List RawRow) (hperm : rows1.Perm rows2)
    (cube1 cube2 : List CubeRow)
    (h1 : build_optimized_pipeline rows1 = Except.ok cube1)
    (h2 : build_optimized_pipeline rows2 = Except.ok cube2) :
    cube1.Perm cube2 := by
  unfold build_optimized_pipeline at h1 h2
  cases hm1 : mapRowsE transformRow rows1 with
  | error e => rw [hm1] at h1; exact Except.noConfusion h1
  | ok t1 =>
    cases hm2 : mapRowsE transformRow rows2 with
    | error e => rw [hm2] at h2; exact Except.noConfusion h2
    | ok t2 =>
      rw [hm1] at h1
      rw [hm2] at h2
      injection h1 with h1
      injection h2 with h2
      subst h1
      subst h2
      have e1 := mapRowsE_ok_eq transformRow rows1 t1 hm1
      have e2 := mapRowsE_ok_eq transformRow rows2 t2 hm2
      subst e1
      subst e2
      exact buildCube_perm (hperm.filterMap (rowToOption transformRow))

/-- Claim C9 witness: swapping the first two rows of the three-row input
permutes the cube. -/
theorem claim_c9_witness :
    rows3.Perm [rowCA20, rowCA10, rowNY5] ∧
    (buildCube txs3).Perm
      (buildCube [transformPure rowCA20, transformPure rowCA10, transformPure rowNY5]) :=
  ⟨by decide,
   claim_c9_determinism rows3 [rowCA20, rowCA10, rowNY5] (by decide)
     (buildCube txs3)
     (buildCube [transformPure rowCA20, transformPure rowCA10, transformPure rowNY5])
     (build_ok_of_mapRows rows3 txs3 rfl)
     (build_ok_of_mapRows [rowCA20, rowCA10, rowNY5]
       [transformPure rowCA20, transformPure rowCA10, transformPure rowNY5] rfl)⟩
